import Mathlib

/-!
Shallow embedding of the PFT-classification training pipeline of
`src/initialize/hyperspectral.py` (functions `train_pft_classifier`,
`filter_out_wavelengths`, `cm_analysis`), together with theorems settling
the specification claims about it.

Floating-point wavelengths and feature values are modelled as `Rat`
(the source only compares, rounds, averages and divides them); pandas
DataFrames are modelled as explicit column lists plus cell rows, and the
library routines the source calls (`train_test_split`, `DataFrame.sample`,
`StandardScaler`/`PCA` fitting, `RandomForestClassifier.fit`) are modelled
at the level of detail the claims depend on: which rows they receive,
which parameters they fit, and how their outputs are indexed.
-/

/-- Python `round` on a rational: round half to even (banker's rounding),
as used by `round(w)` in `filter_out_wavelengths`.  The fractional part
`q - floor q` equals `r / q.den` with `r = q.num - floor q * q.den`, so it is
compared with `1/2` by cross-multiplication, keeping the definition
kernel-computable. -/
def pyRound (q : Rat) : Int :=
  let f := q.floor
  let r := q.num - f * (q.den : Int)
  if 2 * r < (q.den : Int) then f
  else if (q.den : Int) < 2 * r then f + 1
  else if f % 2 = 0 then f else f + 1

/-- The "bad band" predicate of `filter_out_wavelengths` (lines 999-1002):
`(w > 1340) & (w < 1445) | (w > 1790) & (w < 1955)`. -/
def badBand (w : Rat) : Bool :=
  (decide (1340 < w) && decide (w < 1445)) || (decide (1790 < w) && decide (w < 1955))

/-- `filter_out_wavelengths` (lines 991-1014): builds `remove_bands`, then the
lookup table pairing each wavelength with column name `"X" + str(round(w))`,
keeping the rows whose wavelength is not a member of `remove_bands`
(`~np.in1d(wavelengths_np, remove_bands)`).  The `layer_names` argument is
only used for a printed warning (line 1005-1006) and does not affect the
returned table, so it is omitted here. -/
def filter_out_wavelengths (wavelengths : List Rat) : List (Rat × String) :=
  let remove_bands := wavelengths.filter badBand
  (wavelengths.map (fun w => (w, "X" ++ toString (pyRound w)))).filter
    (fun p => !(decide (p.1 ∈ remove_bands)))

lemma filter_map_pair (R : List Rat) (f : Rat → String) (l : List Rat) :
    ((l.map (fun w => (w, f w))).filter (fun p => !(decide (p.1 ∈ R))))
      = (l.filter (fun w => !(decide (w ∈ R)))).map (fun w => (w, f w)) := by
  induction l with
  | nil => rfl
  | cons a l ih =>
      by_cases h : a ∈ R <;> simp [h, ih]

lemma mem_filter_badBand (ws : List Rat) (w : Rat) (hw : w ∈ ws) :
    (w ∈ ws.filter badBand) ↔ badBand w = true := by
  constructor
  · intro h
    exact (List.mem_filter.mp h).2
  · intro h
    exact List.mem_filter.mpr ⟨hw, h⟩

/-- C5: for every wavelength list the filter drops exactly the entries with
`1340 < w < 1445` or `1790 < w < 1955` and maps each retained wavelength `w`
to the column id `"X" ++ round(w)`; in particular on
`[1300, 1400, 1450, 1800, 2000]` it retains `[1300, 1450, 2000]` mapped to
`X1300`, `X1450`, `X2000`. -/
theorem filter_out_wavelengths_characterization :
    ∀ ws : List Rat,
      filter_out_wavelengths ws
        = (ws.filter (fun w => !(badBand w))).map
            (fun w => (w, "X" ++ toString (pyRound w)))
    ∧ filter_out_wavelengths [1300, 1400, 1450, 1800, 2000]
        = [(1300, "X1300"), (1450, "X1450"), (2000, "X2000")] := by
  intro ws
  constructor
  · unfold filter_out_wavelengths
    rw [filter_map_pair]
    congr 1
    apply List.filter_congr
    intro w hw
    by_cases h : badBand w = true
    · simp [h, (mem_filter_badBand ws w hw).mpr h]
    · have hnot : ¬ w ∈ ws.filter badBand := by
        intro hmem
        exact h ((mem_filter_badBand ws w hw).mp hmem)
      simp [hnot, h]
  · decide

/-! ## DataFrame model for the per-site-year aggregation loop (lines 609-651)

A pandas DataFrame is modelled as a list of column names plus rows of cells;
a cell is a missing value (`NaN`), a number, or a string (`shapeID`, `pft`). -/

inductive Cell where
  | na : Cell
  | num : Rat → Cell
  | str : String → Cell
deriving DecidableEq, Repr

/-- Does the cell hold a missing value (pandas `NaN`)? -/
def cellIsNA : Cell → Bool
  | Cell.na => true
  | _ => false

structure PTable where
  cols : List String
  rows : List (List Cell)
deriving DecidableEq, Repr

/-- Python `str.isdigit`: nonempty and all characters are digits.  Used by the
source at lines 645-646 to recognize the numeric (spectral band) columns. -/
def pyIsDigit (s : String) : Bool := !(s.data.isEmpty) && s.data.all Char.isDigit

/-- Python `s.startswith('X')`: the first character is `X`.  (Defined on the
character list so that it evaluates inside the kernel.) -/
def startsWithX (s : String) : Bool :=
  match s.data with
  | c :: _ => c == 'X'
  | [] => false

/-- Line 639: `rename(columns=lambda x: x[1:] if x.startswith('X') else x)` —
drop the leading `X` from every column name that starts with one. -/
def stripXFromCols (t : PTable) : PTable :=
  { t with cols := t.cols.map (fun x => if startsWithX x then x.drop 1 else x) }

/-- Lines 645-646: `numeric_columns = [col for col in columns if col.isdigit()]`
and then each numeric column `x` is renamed to `X{numeric_columns.index(x)+1}`,
i.e. the positional canonical form `X1..Xn`. -/
def renameNumericPositional (t : PTable) : PTable :=
  let numeric_columns := t.cols.filter pyIsDigit
  { t with
    cols := t.cols.map (fun x =>
      if numeric_columns.contains x then
        "X" ++ toString (numeric_columns.indexOf x + 1)
      else x) }

/-- The per-site-year column preparation applied before concatenation
(lines 639-646), on a table already restricted to `featureNames`. -/
def prepSiteYear (t : PTable) : PTable :=
  renameNumericPositional (stripXFromCols t)

/-- Realign one row of a table with columns `tcols` to the column list `cols`
of the concatenated frame: a column absent from `tcols` gets `NaN`, as pandas
`concat` does on an outer join of mismatched columns. -/
def rowAlignTo (cols tcols : List String) (row : List Cell) : List Cell :=
  cols.map (fun c => if tcols.contains c then row.getD (tcols.indexOf c) Cell.na else Cell.na)

/-- `pd.concat([t1, t2])` with the default outer join: the column set is the
union (columns of `t1` first, then the new columns of `t2` in order), rows of
both tables realigned to it with `NaN` in the columns they lack. -/
def concatOuter (t1 t2 : PTable) : PTable :=
  let cols := t1.cols ++ t2.cols.filter (fun c => !(t1.cols.contains c))
  { cols := cols
    rows := t1.rows.map (rowAlignTo cols t1.cols) ++ t2.rows.map (rowAlignTo cols t2.cols) }

/-- Line 651: `features_df.dropna()` — drop every row containing a missing
value in any column. -/
def dropna (t : PTable) : PTable :=
  { t with rows := t.rows.filter (fun r => !(r.any cellIsNA)) }

/-- The aggregation loop of lines 609-651: starting from
`features_df = pd.DataFrame()`, each prepared site-year table is concatenated
onto the accumulator, and rows with missing values are dropped at the end. -/
def aggregate (ts : List PTable) : PTable :=
  dropna (ts.foldl (fun acc t => concatOuter acc (prepSiteYear t)) (PTable.mk [] []))

/-- A site-year table with three spectral band columns (already restricted to
`featureNames` as at line 637) holding two crown rows. -/
def siteYear3 : PTable :=
  { cols := ["shapeID", "pft", "X470", "X505", "X541"]
    rows := [[Cell.str "s1", Cell.str "pine", Cell.num 1, Cell.num 2, Cell.num 3],
             [Cell.str "s2", Cell.str "fir", Cell.num 4, Cell.num 5, Cell.num 6]] }

/-- A site-year table with four spectral band columns holding two crown rows. -/
def siteYear4 : PTable :=
  { cols := ["shapeID", "pft", "X470", "X505", "X541", "X577"]
    rows := [[Cell.str "s3", Cell.str "oak", Cell.num 7, Cell.num 8, Cell.num 9, Cell.num 10],
             [Cell.str "s4", Cell.str "pine", Cell.num 11, Cell.num 12, Cell.num 13, Cell.num 14]] }

/-- The spectral columns of the aggregated table, as selected by the source
(`columns.str.startswith('X')`, line 673). -/
def spectralCols (t : PTable) : List String :=
  t.cols.filter (fun c => startsWithX c)

/-- C2 counterexample: concatenating a 3-band and a 4-band site-year after
positional renaming yields a table whose canonical spectral column set has
`4 = max(3,4)` columns, not `min(3,4) = 3` as claimed. -/
theorem aggregate_union_not_min_counterexample :
    spectralCols (aggregate [siteYear3, siteYear4]) = ["X1", "X2", "X3", "X4"]
    ∧ ¬ (spectralCols (aggregate [siteYear3, siteYear4])).length = 3 := by
  exact ⟨by decide, by decide⟩

/-- C2 amended: for two site-years contributing 3 and 4 spectral band columns,
after positional renaming the concatenated aggregated table carries the union
`X1..X4` of canonical spectral columns (`max(3,4) = 4`, not `min(3,4) = 3`);
the rows of the 3-band site-year, which hold a missing value in the extra
column `X4`, are all dropped by the missing-value filter, leaving exactly the
rows of the 4-band site-year. -/
theorem aggregate_two_site_years :
    aggregate [siteYear3, siteYear4]
      = { cols := ["shapeID", "pft", "X1", "X2", "X3", "X4"]
          rows := [[Cell.str "s3", Cell.str "oak", Cell.num 7, Cell.num 8, Cell.num 9, Cell.num 10],
                   [Cell.str "s4", Cell.str "pine", Cell.num 11, Cell.num 12, Cell.num 13, Cell.num 14]] }
    ∧ (concatOuter (prepSiteYear siteYear3) (prepSiteYear siteYear4)).rows.length = 4 := by
  exact ⟨by decide, by decide⟩

/-! ## Group-aware train/test split (lines 653-660)

After `dropna`, the aggregated table is grouped by `['pft', 'shapeID']`
(pandas sorts the group keys), the groups are listed, and
`train_test_split(groups, test_size=0.2, random_state=42)` assigns each whole
group to exactly one of the two partitions.  A row of the aggregated table is
modelled with its two key fields explicit and the remaining feature cells
opaque; the seeded shuffle-and-cut of `train_test_split` is abstracted by an
assignment `assign : Nat → Bool` of group positions to the train (`true`) or
test (`false`) side, quantified over in the theorems so that every seed's
outcome is covered. -/

structure SRow where
  pft : String
  shapeID : String
  feats : List Rat
deriving DecidableEq, Repr

/-- Strict lexicographic comparison of character lists by code point
(kernel-computable, unlike the decidability instance of `String.lt`). -/
def charListLt : List Char → List Char → Bool
  | [], [] => false
  | [], _ :: _ => true
  | _ :: _, [] => false
  | a :: as, b :: bs =>
      if a.toNat < b.toNat then true
      else if b.toNat < a.toNat then false
      else charListLt as bs

/-- Strict lexicographic order on strings, as Python compares label strings. -/
def strLt (a b : String) : Bool := charListLt a.data b.data

/-- Reflexive lexicographic order on strings, used to model the sorted key
order of pandas `groupby` and of `sorted(set(...))`/`np.unique`. -/
def strLe (a b : String) : Bool := strLt a b || a == b

/-- Order on `(pft, shapeID)` compound keys. -/
def keyLe (p q : String × String) : Bool :=
  strLt p.1 q.1 || (p.1 == q.1 && strLe p.2 q.2)

/-- Insert into a sorted list, keeping it sorted. -/
def insertSorted (le : α → α → Bool) (a : α) : List α → List α
  | [] => [a]
  | b :: l => if le a b then a :: b :: l else b :: insertSorted le a l

/-- Insertion sort (structurally recursive, so it evaluates in the kernel). -/
def sortBy (le : α → α → Bool) (l : List α) : List α :=
  l.foldr (insertSorted le) []

/-- The sorted, duplicate-free list of `(pft, shapeID)` group keys of
`features_df.groupby(['pft', 'shapeID'])` (line 654). -/
def groupKeys (rows : List SRow) : List (String × String) :=
  sortBy keyLe ((rows.map (fun r => (r.pft, r.shapeID))).dedup)

/-- The group of a key: all rows carrying that `(pft, shapeID)` pair. -/
def groupRows (rows : List SRow) (k : String × String) : List SRow :=
  rows.filter (fun r => decide ((r.pft, r.shapeID) = k))

/-- Line 655: the list of groups, one per compound key. -/
def groupedFeatures (rows : List SRow) : List (List SRow) :=
  (groupKeys rows).map (groupRows rows)

/-- Distribute whole groups to the two sides according to the assignment of
their positions; the rows of each side are concatenated as by `pd.concat`
(lines 659-660). -/
def splitAux (assign : Nat → Bool) : Nat → List (List SRow) → List SRow × List SRow
  | _, [] => ([], [])
  | i, g :: gs =>
      let rest := splitAux assign (i + 1) gs
      if assign i then (g ++ rest.1, rest.2) else (rest.1, g ++ rest.2)

/-- Lines 653-660: group by `(pft, shapeID)` and split the groups (not the
rows) into the train and test partitions. -/
def train_test_split_groups (assign : Nat → Bool) (rows : List SRow) :
    List SRow × List SRow :=
  splitAux assign 0 (groupedFeatures rows)

/-- The same distribution, acting on the keys themselves. -/
def keySplitAux (assign : Nat → Bool) : Nat → List (String × String) →
    List (String × String) × List (String × String)
  | _, [] => ([], [])
  | i, k :: ks =>
      let rest := keySplitAux assign (i + 1) ks
      if assign i then (k :: rest.1, rest.2) else (rest.1, k :: rest.2)

lemma insertSorted_perm (le : α → α → Bool) (a : α) (l : List α) :
    (insertSorted le a l).Perm (a :: l) := by
  induction l with
  | nil => exact List.Perm.refl _
  | cons b l ih =>
      by_cases h : le a b = true
      · simp [insertSorted, h]
      · simp only [insertSorted, h, if_false]
        exact (ih.cons b).trans (List.Perm.swap a b l)

lemma sortBy_perm (le : α → α → Bool) (l : List α) : (sortBy le l).Perm l := by
  induction l with
  | nil => exact List.Perm.refl _
  | cons a l ih => exact (insertSorted_perm le a (sortBy le l)).trans (ih.cons a)

lemma groupKeys_nodup (rows : List SRow) : (groupKeys rows).Nodup :=
  ((sortBy_perm keyLe _).nodup_iff).mpr (List.nodup_dedup _)

lemma keySplitAux_subset (assign : Nat → Bool) :
    ∀ ks : List (String × String), ∀ i,
      (keySplitAux assign i ks).1 ⊆ ks ∧ (keySplitAux assign i ks).2 ⊆ ks := by
  intro ks
  induction ks with
  | nil => intro i; exact ⟨List.nil_subset _, List.nil_subset _⟩
  | cons k ks ih =>
      intro i
      have h1 := (ih (i + 1)).1
      have h2 := (ih (i + 1)).2
      by_cases h : assign i = true
      · rw [show keySplitAux assign i (k :: ks)
            = (k :: (keySplitAux assign (i + 1) ks).1, (keySplitAux assign (i + 1) ks).2) by
          simp [keySplitAux, h]]
        exact ⟨List.cons_subset_cons k h1, h2.trans (List.subset_cons_self k ks)⟩
      · rw [show keySplitAux assign i (k :: ks)
            = ((keySplitAux assign (i + 1) ks).1, k :: (keySplitAux assign (i + 1) ks).2) by
          simp [keySplitAux, h]]
        exact ⟨h1.trans (List.subset_cons_self k ks), List.cons_subset_cons k h2⟩

lemma keySplitAux_disjoint (assign : Nat → Bool) :
    ∀ ks : List (String × String), ∀ i, ks.Nodup →
      ∀ k, k ∈ (keySplitAux assign i ks).1 → k ∉ (keySplitAux assign i ks).2 := by
  intro ks
  induction ks with
  | nil => intro i _ k hk; simp [keySplitAux] at hk
  | cons k0 ks ih =>
      intro i hnd k hk1 hk2
      have hk0 : k0 ∉ ks := (List.nodup_cons.mp hnd).1
      have hnd' : ks.Nodup := (List.nodup_cons.mp hnd).2
      by_cases h : assign i = true
      · simp only [keySplitAux, h, if_true] at hk1 hk2
        rcases List.mem_cons.mp hk1 with rfl | hk1'
        · exact hk0 ((keySplitAux_subset assign ks (i + 1)).2 hk2)
        · exact ih (i + 1) hnd' k hk1' hk2
      · simp only [keySplitAux, h, if_false] at hk1 hk2
        rcases List.mem_cons.mp hk2 with rfl | hk2'
        · exact hk0 ((keySplitAux_subset assign ks (i + 1)).1 hk1)
        · exact ih (i + 1) hnd' k hk1 hk2'

lemma splitAux_key (assign : Nat → Bool) (rows : List SRow) :
    ∀ ks : List (String × String), ∀ i, ∀ r : SRow,
      (r ∈ (splitAux assign i (ks.map (groupRows rows))).1 →
        r ∈ rows ∧ (r.pft, r.shapeID) ∈ (keySplitAux assign i ks).1)
      ∧ (r ∈ (splitAux assign i (ks.map (groupRows rows))).2 →
        r ∈ rows ∧ (r.pft, r.shapeID) ∈ (keySplitAux assign i ks).2) := by
  intro ks
  induction ks with
  | nil => intro i r; constructor <;> (intro h; simp [splitAux] at h)
  | cons k ks ih =>
      intro i r
      by_cases h : assign i = true <;>
        simp only [List.map_cons, splitAux, keySplitAux, h, if_true, if_false] <;>
        constructor <;> intro hr
      · rcases List.mem_append.mp hr with hg | hrest
        · have := List.mem_filter.mp hg
          exact ⟨this.1, by simp [List.mem_cons, of_decide_eq_true this.2]⟩
        · have := ((ih (i + 1) r).1) hrest
          exact ⟨this.1, List.mem_cons_of_mem k this.2⟩
      · exact ((ih (i + 1) r).2) hr
      · have := ((ih (i + 1) r).1) hr
        exact ⟨this.1, this.2⟩
      · rcases List.mem_append.mp hr with hg | hrest
        · have := List.mem_filter.mp hg
          exact ⟨this.1, by simp [List.mem_cons, of_decide_eq_true this.2]⟩
        · have := ((ih (i + 1) r).2) hrest
          exact ⟨this.1, List.mem_cons_of_mem k this.2⟩

/-- C1 amended: whenever each `shapeID` carries a single `pft` (the intended
data-model invariant: a crown has one class), the group split assigns whole
`(pft, shapeID)` groups to one partition and no `shapeID` occurs in both the
train and the test rows, for every assignment (hence every seed). -/
theorem groups_split_no_shapeID_leakage :
    ∀ (rows : List SRow) (assign : Nat → Bool),
      (∀ r ∈ rows, ∀ r' ∈ rows, r.shapeID = r'.shapeID → r.pft = r'.pft) →
      ∀ s, s ∈ ((train_test_split_groups assign rows).1.map SRow.shapeID) →
        s ∉ ((train_test_split_groups assign rows).2.map SRow.shapeID) := by
  intro rows assign hfun s hs1 hs2
  obtain ⟨r, hr, hrs⟩ := List.mem_map.mp hs1
  obtain ⟨r', hr', hrs'⟩ := List.mem_map.mp hs2
  have h1 := ((splitAux_key assign rows (groupKeys rows) 0 r).1) hr
  have h2 := ((splitAux_key assign rows (groupKeys rows) 0 r').2) hr'
  have hid : r.shapeID = r'.shapeID := hrs.trans hrs'.symm
  have hp : r.pft = r'.pft := hfun r h1.1 r' h2.1 hid
  have hkey : (r.pft, r.shapeID) = (r'.pft, r'.shapeID) := by rw [hp, hid]
  exact keySplitAux_disjoint assign (groupKeys rows) 0 (groupKeys_nodup rows)
    (r.pft, r.shapeID) h1.2 (hkey ▸ h2.2)

/-- Witness for `groups_split_no_shapeID_leakage` at a concrete table of two
crowns of one class and the assignment sending the first group to train. -/
theorem groups_split_no_shapeID_leakage_witness :
    "s1" ∈ ((train_test_split_groups (fun n => n == 0)
        [SRow.mk "A" "s1" [], SRow.mk "A" "s2" []]).1.map SRow.shapeID)
    ∧ "s1" ∉ ((train_test_split_groups (fun n => n == 0)
        [SRow.mk "A" "s1" [], SRow.mk "A" "s2" []]).2.map SRow.shapeID) :=
  ⟨by decide,
   groups_split_no_shapeID_leakage [SRow.mk "A" "s1" [], SRow.mk "A" "s2" []]
     (fun n => n == 0) (by decide) "s1" (by decide)⟩

/-- C1 counterexample: on a table where one `shapeID` occurs under two `pft`
classes, the two `(pft, shapeID)` groups can land on opposite sides of the
split, so that `shapeID` occurs in both the train and the test rows: the
claim does not hold for every input table. -/
theorem groups_split_shared_shapeID_counterexample :
    "s0" ∈ ((train_test_split_groups (fun n => n == 0)
        [SRow.mk "A" "s0" [], SRow.mk "B" "s0" []]).1.map SRow.shapeID)
    ∧ "s0" ∈ ((train_test_split_groups (fun n => n == 0)
        [SRow.mk "A" "s0" [], SRow.mk "B" "s0" []]).2.map SRow.shapeID) := by
  exact ⟨by decide, by decide⟩

/-! ## Class balancing and classifier fitting (lines 684-741)

After the split, `train_df` has the `shapeID` column dropped; a training row
is its `pft` label plus feature cells.  `train_features` (line 685) pairs each
row's label with its principal-component features; the PCA row map is an
opaque parameter here since only the dataflow matters to the claims.
`DataFrame.sample`, called at line 731 WITHOUT a `random_state`, draws from
the process-global RNG; it is modelled by an arbitrary sampler function
`sample g n` expected to return `n` distinct rows of `g`. -/

structure FRow where
  pft : String
  feats : List Rat
deriving DecidableEq, Repr

/-- The sorted distinct class labels, the iteration order of
`train_df.groupby("pft")`. -/
def classList (rows : List FRow) : List String :=
  sortBy strLe ((rows.map FRow.pft).dedup)

/-- Rows of one class. -/
def classRows (rows : List FRow) (c : String) : List FRow :=
  rows.filter (fun r => decide (r.pft = c))

/-- Number of rows of one class. -/
def classCount (rows : List FRow) (c : String) : Nat :=
  (classRows rows c).length

/-- Line 730: `train_df["pft"].value_counts().min()` — the size of the
smallest class (`0` only on an empty frame, where pandas yields `NaN`). -/
def minSamplesOf (rows : List FRow) : Nat :=
  (((classList rows).map (classCount rows)).min?).getD 0

/-- Line 731: `train_df.groupby("pft").apply(lambda x: x.sample(minSamples))`
— per class (in sorted order), draw `minSamples` rows with the unseeded
sampler, and concatenate the per-class results. -/
def balanceClasses (sample : List FRow → Nat → List FRow) (rows : List FRow) :
    List FRow :=
  let minSamples := minSamplesOf rows
  ((classList rows).map (fun c => sample (classRows rows c) minSamples)).flatten

/-- Model of a fitted `RandomForestClassifier` (line 735-736): the recorded
hyperparameters and the sorted distinct class labels seen by `fit`.  As in the
source, no emptiness or degenerate-class check precedes the fit. -/
structure RFModel where
  n_estimators : Nat
  random_state : Nat
  classes : List String
deriving DecidableEq, Repr

/-- `RF(n_estimators=ntree, random_state=42, class_weight="balanced").fit`:
records the sorted unique labels of the training frame. -/
def rf_fit (ntree seed : Nat) (labels : List String) : RFModel :=
  { n_estimators := ntree, random_state := seed, classes := sortBy strLe labels.dedup }

/-- Lines 733-741: if no artifact is stored at `rf_model_path`, fit the model
and store it (`dump`); otherwise load the stored artifact unchanged.  The
filesystem is modelled as an association list from paths to artifacts. -/
def fit_or_load (store : List (String × RFModel)) (path : String) (ntree : Nat)
    (labels : List String) : RFModel × List (String × RFModel) :=
  match store.lookup path with
  | none =>
      let m := rf_fit ntree 42 labels
      (m, (path, m) :: store)
  | some m => (m, store)

structure TrainStageOut where
  fitLabels : List String
  balanced : List FRow
  model : RFModel
deriving Repr

/-- The fit stage, lines 684-741 in source order: `train_features` is built
from `train_df` at line 685; lines 729-731 then REBIND `train_df` to the
class-balanced subsample when `randomMinSamples` is set; the fit at line 736
is called on `train_features`, which was computed before the rebind, so the
rebound frame (returned here as `balanced`) never reaches the classifier. -/
def train_then_fit (pcaRow : List Rat → List Rat)
    (sample : List FRow → Nat → List FRow) (randomMinSamples : Bool)
    (ntree : Nat) (store : List (String × RFModel)) (path : String)
    (train_df : List FRow) : TrainStageOut × List (String × RFModel) :=
  let train_features := train_df.map (fun r => FRow.mk r.pft (pcaRow r.feats))
  let train_df2 := if randomMinSamples then balanceClasses sample train_df else train_df
  let fl := fit_or_load store path ntree (train_features.map FRow.pft)
  ({ fitLabels := train_features.map FRow.pft
     balanced := train_df2
     model := fl.1 }, fl.2)

/-- The claim C3 scenario: class counts A:100, B:10, C:5. -/
def c3rows : List FRow :=
  List.replicate 100 (FRow.mk "A" [0]) ++ List.replicate 10 (FRow.mk "B" [0])
    ++ List.replicate 5 (FRow.mk "C" [0])

set_option maxRecDepth 4000 in
/-- C3: with `randomMinSamples` set and class counts {A:100, B:10, C:5}, the
balanced frame computed at line 731 does have exactly 5 rows per class, but it
is assigned to `train_df` after `train_features` was built (line 685), and the
fit at line 736 receives `train_features`: the classifier is fitted on labels
with counts {A:100, B:10, C:5}, not 5 per class.  This holds for every PCA row
map, since the labels do not pass through it. -/
theorem balance_subsample_unused_by_fit (pcaRow : List Rat → List Rat) :
    (train_then_fit pcaRow (fun g n => g.take n) true 500 [] "rf_model.joblib"
        c3rows).1.fitLabels.count "A" = 100
    ∧ (train_then_fit pcaRow (fun g n => g.take n) true 500 [] "rf_model.joblib"
        c3rows).1.fitLabels.count "B" = 10
    ∧ (train_then_fit pcaRow (fun g n => g.take n) true 500 [] "rf_model.joblib"
        c3rows).1.fitLabels.count "C" = 5
    ∧ classCount ((train_then_fit pcaRow (fun g n => g.take n) true 500 []
        "rf_model.joblib" c3rows).1.balanced) "A" = 5
    ∧ classCount ((train_then_fit pcaRow (fun g n => g.take n) true 500 []
        "rf_model.joblib" c3rows).1.balanced) "B" = 5
    ∧ classCount ((train_then_fit pcaRow (fun g n => g.take n) true 500 []
        "rf_model.joblib" c3rows).1.balanced) "C" = 5 := by
  exact ⟨rfl, rfl, rfl, rfl, rfl, rfl⟩

/-- A training frame in which class `C` has zero rows: only `A` and `B` occur. -/
def c6rows : List FRow :=
  List.replicate 3 (FRow.mk "A" [0]) ++ List.replicate 2 (FRow.mk "B" [0])

/-- C6: fitting on a frame in which a class (`C`) has zero rows silently
proceeds: the stage completes and produces a model whose classes are just the
labels present, with no check and no error path anywhere in lines 729-741. -/
theorem fit_proceeds_without_degenerate_class_check :
    (train_then_fit (fun v => v) (fun g n => g.take n) false 500 []
        "rf_model.joblib" c6rows).1.model
      = { n_estimators := 500, random_state := 42, classes := ["A", "B"] }
    ∧ "C" ∉ (train_then_fit (fun v => v) (fun g n => g.take n) false 500 []
        "rf_model.joblib" c6rows).1.model.classes := by
  exact ⟨by decide, by decide⟩

/-- C9: when an artifact is already stored at the target path, the fit-or-load
step returns the stored artifact and leaves the store unchanged: no fit is
performed and nothing is overwritten. -/
theorem existing_artifact_short_circuits :
    ∀ (store : List (String × RFModel)) (path : String) (ntree : Nat)
      (labels : List String) (m : RFModel),
      store.lookup path = some m →
      fit_or_load store path ntree labels = (m, store) := by
  intro store path ntree labels m h
  unfold fit_or_load
  rw [h]

/-- Witness for `existing_artifact_short_circuits` at a concrete store holding
a previously trained artifact. -/
theorem existing_artifact_short_circuits_witness :
    fit_or_load [("rf_dir/rf_model.joblib", rf_fit 500 42 ["A", "B"])]
        "rf_dir/rf_model.joblib" 100 ["C"]
      = (rf_fit 500 42 ["A", "B"], [("rf_dir/rf_model.joblib", rf_fit 500 42 ["A", "B"])]) :=
  existing_artifact_short_circuits [("rf_dir/rf_model.joblib", rf_fit 500 42 ["A", "B"])]
    "rf_dir/rf_model.joblib" 100 ["C"] (rf_fit 500 42 ["A", "B"]) (by decide)

/-- A training frame with unequal class counts (A:2, B:1). -/
def c7rows : List FRow :=
  [FRow.mk "A" [1], FRow.mk "A" [2], FRow.mk "B" [3]]

/-- C7: the class-balancing subsample of line 731 is drawn by
`DataFrame.sample` with no `random_state`, i.e. from the process-global RNG:
two samplers that are both valid draws (subsets of the right size, as two
executions of the unseeded sampler may produce) yield different balanced
frames on the same input, so the value computed by the balance step is not
reproducible under a fixed pipeline seed. -/
theorem unseeded_sample_nondeterministic :
    ∃ s1 s2 : List FRow → Nat → List FRow,
      (∀ (g : List FRow) (n : Nat), (s1 g n).Subperm g ∧ (s2 g n).Subperm g)
      ∧ (∀ (g : List FRow) (n : Nat), n ≤ g.length →
          (s1 g n).length = n ∧ (s2 g n).length = n)
      ∧ balanceClasses s1 c7rows ≠ balanceClasses s2 c7rows := by
  refine ⟨fun g n => g.take n, fun g n => g.drop (g.length - n), ?_, ?_, ?_⟩
  · intro g n
    exact ⟨(List.take_sublist n g).subperm, (List.drop_sublist (g.length - n) g).subperm⟩
  · intro g n h
    constructor
    · simp [List.length_take]
      omega
    · simp [List.length_drop]
      omega
  · decide

/-! ## Standardization and projection (lines 672-681 and 744-745)

`StandardScaler` is embedded concretely: per-column mean and population
variance computed from the rows it is fitted on; the transform subtracts the
fitted mean and divides by the fitted scale (`sqrt(var)`, with zero scales
replaced by `1` as sklearn does).  Square roots are irrational, so the scale
is produced by an opaque parameter `sqrtQ`; `PCA` fitting and projection are
likewise opaque parameters — claim C4 is about which partition the parameters
are fitted on and which parameters transform the test partition, not about
the numerics of either routine. -/

/-- The `j`-th columns (as lists) of a row-major matrix of width `w`. -/
def colsOf (w : Nat) (m : List (List Rat)) : List (List Rat) :=
  (List.range w).map (fun j => m.map (fun row => row.getD j 0))

/-- Column mean. -/
def listMean (l : List Rat) : Rat := l.sum / (l.length : Rat)

/-- Column population variance (`ddof=0`, as `StandardScaler` uses). -/
def listVar (l : List Rat) : Rat :=
  ((l.map (fun x => (x - listMean l) ^ 2)).sum) / (l.length : Rat)

structure ScalerP where
  mean : List Rat
  var : List Rat
deriving Repr

/-- `StandardScaler().fit`: per-column mean and variance of the fitted data. -/
def standardScaler_fit (w : Nat) (m : List (List Rat)) : ScalerP :=
  { mean := (colsOf w m).map listMean, var := (colsOf w m).map listVar }

/-- `scaler.transform` on one row: `(x - mean) / scale`, where
`scale = sqrt(var)` with zero scales replaced by `1`. -/
def scalerTransformRow (sqrtQ : Rat → Rat) (s : ScalerP) (row : List Rat) : List Rat :=
  (List.range s.mean.length).map (fun j =>
    (row.getD j 0 - s.mean.getD j 0)
      / (if sqrtQ (s.var.getD j 0) = 0 then 1 else sqrtQ (s.var.getD j 0)))

/-- `scaler.transform` on a matrix. -/
def standardScaler_transform (sqrtQ : Rat → Rat) (s : ScalerP)
    (m : List (List Rat)) : List (List Rat) :=
  m.map (scalerTransformRow sqrtQ s)

/-- Lines 672-681 and 744-745, in source order: fit the scaler on the train
matrix, fit PCA on the scaled train matrix (both persisted at lines 680-681),
then transform the test matrix with the same fitted scaler (line 744, "Use the
same scaler") and the same fitted PCA (line 745). -/
def reduce_stage {P : Type} (sqrtQ : Rat → Rat) (w : Nat)
    (pca_fit : List (List Rat) → P)
    (pca_transform : P → List (List Rat) → List (List Rat))
    (xTrain xTest : List (List Rat)) :
    ScalerP × P × List (List Rat) × List (List Rat) :=
  let scaler := standardScaler_fit w xTrain
  let xTrainScaled := standardScaler_transform sqrtQ scaler xTrain
  let pca := pca_fit xTrainScaled
  let xTrainPca := pca_transform pca xTrainScaled
  let xTestScaled := standardScaler_transform sqrtQ scaler xTest
  let xTestPca := pca_transform pca xTestScaled
  (scaler, pca, xTrainPca, xTestPca)

/-- C4: the scaler parameters and the PCA projector are fitted only on the
training partition — they are exactly the train-fitted values and do not
change when the test partition changes — and the transformed test matrix is
obtained by applying precisely those train-fitted parameters to the test
rows, with no refitting. -/
theorem reducer_fits_on_train_only {P : Type} (sqrtQ : Rat → Rat) (w : Nat)
    (pca_fit : List (List Rat) → P)
    (pca_transform : P → List (List Rat) → List (List Rat))
    (xTrain xTest xTest' : List (List Rat)) :
    (reduce_stage sqrtQ w pca_fit pca_transform xTrain xTest).1
        = standardScaler_fit w xTrain
    ∧ (reduce_stage sqrtQ w pca_fit pca_transform xTrain xTest).2.1
        = pca_fit (standardScaler_transform sqrtQ (standardScaler_fit w xTrain) xTrain)
    ∧ (reduce_stage sqrtQ w pca_fit pca_transform xTrain xTest).1
        = (reduce_stage sqrtQ w pca_fit pca_transform xTrain xTest').1
    ∧ (reduce_stage sqrtQ w pca_fit pca_transform xTrain xTest).2.1
        = (reduce_stage sqrtQ w pca_fit pca_transform xTrain xTest').2.1
    ∧ (reduce_stage sqrtQ w pca_fit pca_transform xTrain xTest).2.2.2
        = pca_transform (reduce_stage sqrtQ w pca_fit pca_transform xTrain xTest).2.1
            (standardScaler_transform sqrtQ
              (reduce_stage sqrtQ w pca_fit pca_transform xTrain xTest).1 xTest) := by
  exact ⟨rfl, rfl, rfl, rfl, rfl⟩

/-! ## Confusion matrices (lines 754-755 and 946-959)

`train_pft_classifier` computes `confusion_matrix(y_true, y_pred)` (raw
counts over the sorted union of labels) and wraps it in
`pd.DataFrame(conf_matrix, index=sorted(set(y_pred)), columns=sorted(set(y_pred)))`,
which raises when the index length differs from the matrix dimension; the
resulting frame is written into `rf_summary_statistics.txt`.  `cm_analysis`
computes `confusion_matrix(..., labels=labels, normalize='true')` and persists
`pd.DataFrame(cm)` — a frame with the default integer positional index. -/

/-- `sorted(set(l))` / `np.unique(l)`: sorted distinct labels. -/
def sortedUnique (l : List String) : List String := sortBy strLe l.dedup

/-- The label list `sklearn.confusion_matrix` uses when none is passed: the
sorted union of the true and predicted labels. -/
def sklearnLabels (yt yp : List String) : List String := sortedUnique (yt ++ yp)

/-- Number of samples with true label `t` and predicted label `p`. -/
def pairCount (yt yp : List String) (t p : String) : Nat :=
  ((yt.zip yp).filter (fun q => decide (q.1 = t) && decide (q.2 = p))).length

/-- `confusion_matrix(y_true, y_pred, labels=labels)`: raw counts, row =
true label, column = predicted label, both running over `labels`. -/
def confusion_matrix (labels yt yp : List String) : List (List Nat) :=
  labels.map (fun t => labels.map (fun p => pairCount yt yp t p))

/-- `normalize='true'`: divide each row by its sum; rows with zero sum become
zero rows (`np.nan_to_num` after the division). -/
def cm_normalize_true (m : List (List Nat)) : List (List Rat) :=
  m.map (fun row =>
    if row.sum = 0 then row.map (fun _ => (0 : Rat))
    else row.map (fun x : Nat => (x : Rat) / (row.sum : Rat)))

/-- The matrix persisted by `cm_analysis` (lines 947, 957-959). -/
def cm_analysis_matrix (labels yt yp : List String) : List (List Rat) :=
  cm_normalize_true (confusion_matrix labels yt yp)

/-- The row index of `pd.DataFrame(cm)` at line 957: the default positional
`RangeIndex`, not the labels. -/
def cm_analysis_df_index (labels : List String) : List Nat :=
  List.range labels.length

/-- Lines 754-755: the raw-count confusion matrix over the sorted union of
labels, wrapped in a DataFrame indexed by `sorted(set(y_pred))` on both axes;
pandas raises (`Except.error`) when the index length does not match the
matrix dimension. -/
def summary_cm (yt yp : List String) :
    Except String (List String × List (List Nat)) :=
  let m := confusion_matrix (sklearnLabels yt yp) yt yp
  let idx := sortedUnique yp
  if idx.length = m.length then Except.ok (idx, m)
  else Except.error "Shape of passed values does not match the indices"

/-- C8 counterexample: with `y_true = y_pred = [A, A]` the persisted summary
matrix is `[[2]]` — raw counts whose row sums to 2, not a matrix normalized
by true-class row sums. -/
theorem summary_cm_raw_counts_counterexample :
    (summary_cm ["A", "A"] ["A", "A"]).toOption = some (["A"], [[2]])
    ∧ (confusion_matrix (sklearnLabels ["A", "A"] ["A", "A"]) ["A", "A"] ["A", "A"]).map
        List.sum ≠ [1] := by
  exact ⟨by decide, by decide⟩

/-- C10 counterexample: with `y_true = [A, A]` and `y_pred = [A, B]` the
summary DataFrame is constructed without error although the predicted-label
set differs from the true-label set — "well-defined only when the
predicted-label set equals the true-label set" fails. -/
theorem summary_cm_welldef_without_equality_counterexample :
    (summary_cm ["A", "A"] ["A", "B"]).isOk = true
    ∧ sortedUnique ["A", "A"] ≠ sortedUnique ["A", "B"] := by
  exact ⟨by decide, by decide⟩

lemma sortedUnique_length (l : List String) :
    (sortedUnique l).length = l.dedup.length :=
  (sortBy_perm strLe l.dedup).length_eq

lemma sortedUnique_nodup (l : List String) : (sortedUnique l).Nodup :=
  ((sortBy_perm strLe l.dedup).nodup_iff).mpr (List.nodup_dedup l)

lemma mem_sortedUnique (l : List String) (a : String) :
    a ∈ sortedUnique l ↔ a ∈ l := by
  rw [sortedUnique, (sortBy_perm strLe l.dedup).mem_iff, List.mem_dedup]

lemma dedup_length_append_eq (yt yp : List String) :
    yp.dedup.length = (yt ++ yp).dedup.length ↔ ∀ t ∈ yt, t ∈ yp := by
  rw [← List.card_toFinset, ← List.card_toFinset]
  constructor
  · intro h t ht
    have hsub : yp.toFinset ⊆ (yt ++ yp).toFinset := by
      intro x hx
      rw [List.toFinset_append]
      exact Finset.mem_union_right _ hx
    have := Finset.eq_of_subset_of_card_le hsub (le_of_eq h.symm)
    have hyt : t ∈ (yt ++ yp).toFinset := by
      rw [List.toFinset_append]
      exact Finset.mem_union_left _ (List.mem_toFinset.mpr ht)
    rw [← this] at hyt
    exact List.mem_toFinset.mp hyt
  · intro h
    have : (yt ++ yp).toFinset = yp.toFinset := by
      rw [List.toFinset_append]
      exact Finset.union_eq_right.mpr (fun x hx =>
        List.mem_toFinset.mpr (h x (List.mem_toFinset.mp hx)))
    rw [this]

/-- C10 amended: the summary DataFrame of lines 754-755 is labeled on both
axes by the sorted set of predicted labels, and its construction succeeds
exactly when every true label also occurs among the predictions (the sorted
predicted set then coincides with the sorted union the matrix is built over);
when some true class is never predicted the index is shorter than the matrix
and the evaluation step fails, as on `y_true = [A, B]`, `y_pred = [A, A]`. -/
theorem summary_cm_welldef_iff :
    ∀ yt yp : List String,
      ((summary_cm yt yp).isOk = true ↔ ∀ t ∈ yt, t ∈ yp)
    ∧ (summary_cm ["A", "B"] ["A", "A"]).isOk = false := by
  intro yt yp
  refine ⟨?_, by decide⟩
  unfold summary_cm
  have hm : (confusion_matrix (sklearnLabels yt yp) yt yp).length
      = (sklearnLabels yt yp).length := List.length_map _ _
  by_cases h : (sortedUnique yp).length
      = (confusion_matrix (sklearnLabels yt yp) yt yp).length
  · simp only [h, if_true]
    rw [hm, sklearnLabels, sortedUnique_length, sortedUnique_length] at h
    simp [Except.isOk, Except.toBool]
    exact (dedup_length_append_eq yt yp).mp h
  · simp only [h, if_false]
    rw [hm, sklearnLabels, sortedUnique_length, sortedUnique_length] at h
    simp [Except.isOk, Except.toBool]
    by_contra hno
    push_neg at hno
    exact h ((dedup_length_append_eq yt yp).mpr hno)

lemma list_sum_map_add {α : Type} (L : List α) (f g : α → Nat) :
    (L.map (fun x => f x + g x)).sum = (L.map f).sum + (L.map g).sum := by
  induction L with
  | nil => rfl
  | cons a L ih =>
      simp only [List.map_cons, List.sum_cons, ih]
      omega

lemma indicator_sum_zero (L : List String) (a : String) (ha : a ∉ L) :
    (L.map (fun p => if a = p then 1 else 0)).sum = 0 := by
  induction L with
  | nil => rfl
  | cons b L ih =>
      have hab : ¬ a = b := fun hab => ha (hab ▸ List.mem_cons_self b L)
      have haL : a ∉ L := fun hm => ha (List.mem_cons_of_mem b hm)
      simp [hab, ih haL]

lemma indicator_sum_one (L : List String) (a : String) (hnd : L.Nodup)
    (ha : a ∈ L) : (L.map (fun p => if a = p then 1 else 0)).sum = 1 := by
  induction L with
  | nil => cases ha
  | cons b L ih =>
      rcases List.mem_cons.mp ha with rfl | haL
      · have : a ∉ L := (List.nodup_cons.mp hnd).1
        simp [indicator_sum_zero L a this]
      · have hab : ¬ a = b := by
          intro hab
          exact (List.nodup_cons.mp hnd).1 (hab ▸ haL)
        simp only [List.map_cons, List.sum_cons, hab, if_false]
        simpa using ih (List.nodup_cons.mp hnd).2 haL

lemma pair_partition (t : String) (L : List String) (hnd : L.Nodup) :
    ∀ l : List (String × String), (∀ q ∈ l, q.2 ∈ L) →
      (L.map (fun p =>
        (l.filter (fun q => decide (q.1 = t) && decide (q.2 = p))).length)).sum
        = (l.filter (fun q => decide (q.1 = t))).length := by
  intro l
  induction l with
  | nil => intro _; simp
  | cons q l ih =>
      intro hmem
      have hq2 : q.2 ∈ L := hmem q (List.mem_cons_self q l)
      have hrest : ∀ q' ∈ l, q'.2 ∈ L := fun q' hq' => hmem q' (List.mem_cons_of_mem q hq')
      have hsplit : ∀ p : String,
          ((q :: l).filter (fun r => decide (r.1 = t) && decide (r.2 = p))).length
            = (if q.1 = t ∧ q.2 = p then 1 else 0)
              + (l.filter (fun r => decide (r.1 = t) && decide (r.2 = p))).length := by
        intro p
        by_cases hq : q.1 = t ∧ q.2 = p
        · simp [List.filter_cons, hq.1, hq.2]
          omega
        · rcases Decidable.not_and_iff_or_not.mp hq with h1 | h1 <;>
            simp [List.filter_cons, h1, hq]
      have hmap : (L.map (fun p =>
          ((q :: l).filter (fun r => decide (r.1 = t) && decide (r.2 = p))).length))
            = (L.map (fun p => (if q.1 = t ∧ q.2 = p then 1 else 0)
              + (l.filter (fun r => decide (r.1 = t) && decide (r.2 = p))).length)) :=
        List.map_congr_left (fun p _ => hsplit p)
      rw [hmap, list_sum_map_add, ih hrest]
      have hcons : ((q :: l).filter (fun r => decide (r.1 = t))).length
          = (if q.1 = t then 1 else 0) + (l.filter (fun r => decide (r.1 = t))).length := by
        by_cases hq : q.1 = t <;> simp [List.filter_cons, hq] <;> omega
      rw [hcons]
      congr 1
      by_cases hq1 : q.1 = t
      · have : (L.map (fun p => if q.1 = t ∧ q.2 = p then 1 else 0))
            = (L.map (fun p => if q.2 = p then 1 else 0)) :=
          List.map_congr_left (fun p _ => by simp [hq1])
        rw [this, indicator_sum_one L q.2 hnd hq2]
        simp [hq1]
      · have : (L.map (fun p => if q.1 = t ∧ q.2 = p then 1 else 0))
            = (L.map (fun _ => 0)) :=
          List.map_congr_left (fun p _ => by simp [hq1])
        rw [this]
        simp [hq1]

lemma list_sum_map_div (row : List Nat) (s : Rat) :
    (row.map (fun x : Nat => (x : Rat) / s)).sum
      = ((row.map (fun x : Nat => (x : Rat))).sum) / s := by
  induction row with
  | nil => simp
  | cons a row ih => simp [List.map_cons, List.sum_cons, ih, add_div]

lemma count_eq_countP_decide (yt : List String) (t : String) :
    yt.countP (fun s => decide (s = t)) = yt.count t := by
  unfold List.count
  apply List.countP_congr
  intro s _
  by_cases h : s = t <;> simp [h]

/-- C8 amended: the persisted `cm_analysis` matrix is row-normalized — each
row whose raw counts are nonzero sums to 1, and zero rows stay zero — but the
persisted DataFrame is indexed by integer positions, not labels; the summary
matrix persisted by `train_pft_classifier` holds raw counts: over the sorted
union of labels, the row of true class `t` sums to the number of true samples
of `t`, not to 1. -/
theorem cm_analysis_normalized_summary_raw :
    ∀ (labels yt yp : List String) (i : Nat), i < labels.length →
      yt.length = yp.length →
      (((cm_analysis_matrix labels yt yp).getD i []).sum
          = if ((confusion_matrix labels yt yp).getD i []).sum = 0 then (0 : Rat) else 1)
      ∧ cm_analysis_df_index labels = List.range labels.length
      ∧ (∀ t ∈ yt,
          ((sklearnLabels yt yp).map (fun p => pairCount yt yp t p)).sum = yt.count t) := by
  intro labels yt yp i hi hlen
  refine ⟨?_, rfl, ?_⟩
  · have hm : (confusion_matrix labels yt yp).length = labels.length :=
      List.length_map _ _
    have him : i < (confusion_matrix labels yt yp).length := by rw [hm]; exact hi
    have hrow : (cm_analysis_matrix labels yt yp).getD i []
        = (fun row : List Nat =>
            if row.sum = 0 then row.map (fun _ => (0 : Rat))
            else row.map (fun x : Nat => (x : Rat) / (row.sum : Rat)))
          ((confusion_matrix labels yt yp).getD i []) := by
      have him2 : i < (cm_analysis_matrix labels yt yp).length := by
        rw [cm_analysis_matrix, cm_normalize_true, List.length_map]
        exact him
      rw [List.getD_eq_getElem _ _ him2, List.getD_eq_getElem _ _ him]
      simp [cm_analysis_matrix, cm_normalize_true]
    rw [hrow]
    set row := (confusion_matrix labels yt yp).getD i [] with hrowdef
    by_cases hz : row.sum = 0
    · simp [hz, List.map_const]
    · simp only [hz, if_false]
      rw [list_sum_map_div row (row.sum : Rat), ← Nat.cast_list_sum]
      exact div_self (by exact_mod_cast hz)
  · intro t ht
    have hsub : ∀ q ∈ yt.zip yp, q.2 ∈ sklearnLabels yt yp := by
      intro q hq
      have := (List.of_mem_zip hq).2
      exact (mem_sortedUnique _ _).mpr (List.mem_append_right yt this)
    have hnd : (sklearnLabels yt yp).Nodup := sortedUnique_nodup _
    have hpart := pair_partition t (sklearnLabels yt yp) hnd (yt.zip yp) hsub
    have hfilters : ((yt.zip yp).filter (fun q => decide (q.1 = t))).length
        = yt.count t := by
      rw [← List.countP_eq_length_filter]
      have hmapfst : (yt.zip yp).map Prod.fst = yt := List.map_fst_zip yt yp (le_of_eq hlen)
      rw [← count_eq_countP_decide yt t]
      conv_rhs => rw [← hmapfst]
      rw [List.countP_map]
      rfl
    rw [← hfilters]
    exact hpart

/-- Witness for `cm_analysis_normalized_summary_raw` at concrete labels. -/
theorem cm_analysis_normalized_summary_raw_witness :
    (((cm_analysis_matrix ["A", "B"] ["A", "B"] ["A", "A"]).getD 0 []).sum
        = if ((confusion_matrix ["A", "B"] ["A", "B"] ["A", "A"]).getD 0 []).sum = 0
          then (0 : Rat) else 1)
    ∧ cm_analysis_df_index ["A", "B"] = List.range (["A", "B"] : List String).length
    ∧ (∀ t ∈ (["A", "B"] : List String),
        ((sklearnLabels ["A", "B"] ["A", "A"]).map
          (fun p => pairCount ["A", "B"] ["A", "A"] t p)).sum
          = (["A", "B"] : List String).count t) :=
  cm_analysis_normalized_summary_raw ["A", "B"] ["A", "B"] ["A", "A"] 0
    (by decide) (by decide)
